import Mathlib

/- Verification of the crawler in scrap_data.py (fetch_page, parse_hotel_links,
extract_opinions, scrape_hotel_opinions, main). Python strings are embedded as
lists of characters; the parsed-HTML capability surface of BeautifulSoup used
by the code (find by tag and class, find_all, attribute lookup, stripped text)
is embedded as a small document tree with a pre-order traversal. Network I/O
is embedded as a deterministic fetch function from URL to optional document;
exceptions the code does not catch are embedded as an Option result. -/

set_option maxRecDepth 100000

abbrev Str := List Char

/-- Python str.split with a one-character separator: keeps empty fields and
never returns an empty list. -/
def pySplit (sep : Char) : Str → List Str
  | [] => [[]]
  | c :: rest =>
      match pySplit sep rest with
      | [] => [[c]]
      | h :: t => if c = sep then [] :: h :: t else (c :: h) :: t

/-- Python sep.join applied to a list of strings. -/
def pyJoin (sep : Str) : List Str → Str
  | [] => []
  | [s] => s
  | s :: rest => s ++ sep ++ pyJoin sep rest

/-- Python str.rfind for a one-character needle: index of its last occurrence,
or -1 when it does not occur. -/
def pyRfind (c : Char) : Str → Int
  | [] => -1
  | x :: xs =>
      let r := pyRfind c xs
      if 0 ≤ r then r + 1 else if x = c then 0 else -1

/-- The fixed URL root used by parse_hotel_links (line 57). -/
def opinieRoot : Str := "https://www.wakacje.pl/opinie/hotele/".toList

/-- The domain root used when resolving next-page links (line 120). -/
def wakacjeRoot : Str := "https://www.wakacje.pl".toList

/-- The slice-and-concatenate step of parse_hotel_links (lines 58-59): insert
the character h right after the last dash found by rfind; rfind yields -1 when
no dash exists, so the slice arithmetic then prepends h to the whole URL. -/
def insertH (url : Str) : Str :=
  url.take (pyRfind '-' url + 1).toNat ++ 'h' :: url.drop (pyRfind '-' url + 1).toNat

/-- The per-href canonicalization of parse_hotel_links (lines 56-59): split the
href on the slash, drop the first three segments, rejoin under the fixed root,
and insert h after the last dash. -/
def rewriteUrl (href : Str) : Str :=
  insertH (opinieRoot ++ pyJoin ['/'] ((pySplit '/' href).drop 3))

/-- A node of a parsed HTML document: an element with tag name, attributes and
children, or a raw text fragment. This is the capability surface of the parsed
tree that scrap_data.py uses. -/
inductive Node where
  | elem (tag : Str) (attrs : List (Str × Str)) (children : List Node)
  | text (s : Str)

/-- A parsed document is the list of top-level nodes. -/
abbrev Doc := List Node

/-- Attribute lookup on an element's attribute list (Tag.get). -/
def getAttr (key : Str) : List (Str × Str) → Option Str
  | [] => none
  | kv :: rest => if kv.1 = key then some kv.2 else getAttr key rest

def attrsOf : Node → List (Str × Str)
  | Node.elem _ a _ => a
  | Node.text _ => []

def childrenOf : Node → List Node
  | Node.elem _ _ cs => cs
  | Node.text _ => []

/-- Python str.split with no separator: whitespace-delimited words, used for
the multi-valued class attribute. -/
def pyWordsAux : Str → Str → List Str
  | [], acc => if acc.isEmpty then [] else [acc.reverse]
  | c :: rest, acc =>
      if c.isWhitespace then
        if acc.isEmpty then pyWordsAux rest [] else acc.reverse :: pyWordsAux rest []
      else pyWordsAux rest (c :: acc)

def pyWords (s : Str) : List Str := pyWordsAux s []

/-- Python str.strip: whitespace removed from both ends. -/
def pyStrip (s : Str) : Str :=
  ((s.dropWhile Char.isWhitespace).reverse.dropWhile Char.isWhitespace).reverse

def classKey : Str := "class".toList

/-- BeautifulSoup class matching: the class attribute, split on whitespace,
contains the requested class name. -/
def hasClass (c : Str) (attrs : List (Str × Str)) : Bool :=
  match getAttr classKey attrs with
  | none => false
  | some v => (pyWords v).contains c

/-- Matcher for find or find_all with a tag name only. -/
def isTag (t : Str) : Node → Bool
  | Node.elem tag _ _ => tag == t
  | Node.text _ => false

/-- Matcher for find or find_all with a tag name and a class. -/
def isTagClass (t c : Str) : Node → Bool
  | Node.elem tag attrs _ => tag == t && hasClass c attrs
  | Node.text _ => false

mutual

/-- The node itself if it matches, followed by its matching descendants, in
document (pre-)order. -/
def findAllN (p : Node → Bool) : Node → List Node
  | Node.text _ => []
  | Node.elem t a cs =>
      (if p (Node.elem t a cs) then [Node.elem t a cs] else []) ++ findAllL p cs

/-- All matching nodes of a forest in document order; applied to a document it
is soup.find_all, applied to an element's children it is tag.find_all. -/
def findAllL (p : Node → Bool) : List Node → List Node
  | [] => []
  | n :: rest => findAllN p n ++ findAllL p rest

end

/-- soup.find: the first matching node in document order, if any. -/
def docFind (p : Node → Bool) (d : List Node) : Option Node :=
  (findAllL p d).head?

mutual

/-- The text fragments below a node, in document order. -/
def textsN : Node → List Str
  | Node.text s => [s]
  | Node.elem _ _ cs => textsL cs

def textsL : List Node → List Str
  | [] => []
  | n :: rest => textsN n ++ textsL rest

end

/-- Tag.get_text with strip=True: each text fragment stripped, then all
fragments concatenated in document order. -/
def getTextStrip (n : Node) : Str := ((textsN n).map pyStrip).flatten

def divTag : Str := "div".toList

def aTag : Str := "a".toList

def pTag : Str := "p".toList

def liTag : Str := "li".toList

def hrefKey : Str := "href".toList

def swiperClass : Str := "swiper-wrapper".toList

def opinionsListClass : Str := "opinions__list".toList

def opinionContentClass : Str := "opinion__attributes-content".toList

def nextItemClass : Str := "pagination__item--next".toList

/-- Effectful map over Option, evaluated left to right and stopping at the
first failure: the shape of a Python loop that appends f a for each element
and may raise partway through. -/
def optMapM (f : α → Option β) : List α → Option (List β)
  | [] => some []
  | a :: rest =>
      match f a with
      | none => none
      | some b => (optMapM f rest).map (fun bs => b :: bs)

/-- parse_hotel_links (lines 31-60): find the swiper-wrapper div; when absent
return the empty list; otherwise rewrite the href of every anchor below it.
An anchor carrying no href makes the Python code raise an AttributeError on
None.split (line 56), embedded as a none result. -/
def parse_hotel_links (soup : Doc) : Option (List Str) :=
  match docFind (isTagClass divTag swiperClass) soup with
  | none => some []
  | some fr =>
      optMapM (fun l => (getAttr hrefKey (attrsOf l)).map rewriteUrl)
        (findAllL (isTag aTag) (childrenOf fr))

/-- extract_opinions (lines 63-87): find the opinions__list div; when absent
return the empty list; otherwise the stripped text of every matching p below
it, in document order. The function is total. -/
def extract_opinions (soup : Doc) : List Str :=
  match docFind (isTagClass divTag opinionsListClass) soup with
  | none => []
  | some d =>
      (findAllL (isTagClass pTag opinionContentClass) (childrenOf d)).map getTextStrip

/-- The next-page control lookup of scrape_hotel_opinions (lines 117 and 124). -/
def findNextItem (soup : Doc) : Option Node :=
  docFind (isTagClass liTag nextItemClass) soup

/-- Python str applied to an optional attribute value: a missing value is the
object None, which prints as the four characters None. -/
def pyStrOpt : Option Str → Str
  | some s => s
  | none => "None".toList

/-- The next-page URL computed in the loop body (line 120): the href of the
first anchor below the pagination item, resolved against the domain root; a
pagination item holding no anchor makes the Python code raise an
AttributeError on None.get, embedded as none. -/
def nextPageUrl (np : Node) : Option Str :=
  (docFind (isTag aTag) (childrenOf np)).map
    (fun a => wakacjeRoot ++ pyStrOpt (getAttr hrefKey (attrsOf a)))

/-- The while loop of scrape_hotel_opinions (lines 119-126), with explicit fuel
bounding the number of iterations. The state carries the accumulated opinions,
the list of URLs passed to fetch_page so far, and the pagination item found on
the page just processed; the loop exits when that item is absent or when a
fetch fails. A none result embeds the uncaught AttributeError raised on a
pagination item without an anchor. The fuel-exhausted case (a pending next
control at fuel zero) truncates: the function is a bounded approximation of
the source's unbounded loop, so a value at one fixed fuel is only an
approximation, and a genuine outcome of the source loop is a value the
approximations stabilize to for every sufficiently large fuel; on a cyclic
next chain, where the source loops forever, no stable value exists. -/
def scrape_loop (fetch : Str → Option Doc) :
    Nat → List Str → List Str → Option Node → Option (List Str × List Str)
  | _, opinions, trace, none => some (opinions, trace)
  | 0, opinions, trace, some _ => some (opinions, trace)
  | fuel + 1, opinions, trace, some np =>
      match nextPageUrl np with
      | none => none
      | some nurl =>
          match fetch nurl with
          | some soup =>
              scrape_loop fetch fuel (opinions ++ extract_opinions soup)
                (trace ++ [nurl]) (findNextItem soup)
          | none => some (opinions, trace ++ [nurl])

/-- scrape_hotel_opinions (lines 90-127): fetch the start URL (an empty result
when that fails), extract the first page's opinions, then follow next-page
links. Returns the accumulated opinions together with every URL fetched. -/
def scrape_hotel_opinions (fetch : Str → Option Doc) (url : Str) (fuel : Nat) :
    Option (List Str × List Str) :=
  match fetch url with
  | none => some ([], [url])
  | some soup =>
      scrape_loop fetch fuel (extract_opinions soup) [url] (findNextItem soup)

/-- The hardcoded catalog URL of main (line 131). -/
def mainUrl : Str := "https://www.wakacje.pl/hotele/".toList

/-- main (lines 130-147): fetch the catalog page (an empty data list when that
fails), extract the hotel links, walk every hotel in order and pair each link
with its opinions. The returned value is exactly the data json.dump serializes
to results/1_opinions.json after the session block; a none result embeds an
uncaught exception aborting the run before the file is written. Lean reserves
the name main, so the function carries the orchestrator name runCrawl. -/
def runCrawl (fetch : Str → Option Doc) (fuel : Nat) :
    Option (List (Str × List Str)) :=
  match fetch mainUrl with
  | none => some []
  | some soup =>
      match parse_hotel_links soup with
      | none => none
      | some hotel_urls =>
          optMapM
            (fun u => (scrape_hotel_opinions fetch u fuel).map (fun r => (u, r.1)))
            hotel_urls

/- Facts about pyRfind and the h insertion. -/

lemma pyRfind_of_not_mem (c : Char) (s : Str) (h : c ∉ s) : pyRfind c s = -1 := by
  induction s with
  | nil => rfl
  | cons x xs ih =>
      rw [List.mem_cons, not_or] at h
      simp only [pyRfind, ih h.2]
      rw [if_neg (by norm_num : ¬ (0 : Int) ≤ -1), if_neg (fun e : x = c => h.1 e.symm)]

lemma pyRfind_last (c : Char) (xs ys : Str) (h : c ∉ ys) :
    pyRfind c (xs ++ c :: ys) = (xs.length : Int) := by
  induction xs with
  | nil =>
      simp only [List.nil_append, pyRfind, pyRfind_of_not_mem c ys h]
      simp
  | cons a as ih =>
      simp only [List.cons_append, pyRfind, List.append_eq, ih]
      rw [if_pos (Int.natCast_nonneg as.length)]
      simp

lemma exists_last_split (c : Char) (s : Str) (h : c ∈ s) :
    ∃ xs ys, s = xs ++ c :: ys ∧ c ∉ ys := by
  induction s with
  | nil => cases h
  | cons a as ih =>
      by_cases hc : c ∈ as
      · obtain ⟨xs, ys, heq, hy⟩ := ih hc
        exact ⟨a :: xs, ys, by rw [heq]; rfl, hy⟩
      · have hac : a = c := by
          rcases List.mem_cons.mp h with h1 | h2
          · exact h1.symm
          · exact absurd h2 hc
        exact ⟨[], as, by simp [hac], hc⟩

lemma insertH_of_not_mem (url : Str) (h : '-' ∉ url) : insertH url = 'h' :: url := by
  unfold insertH
  rw [pyRfind_of_not_mem '-' url h]
  have h0 : ((-1 : Int) + 1).toNat = 0 := by norm_num
  rw [h0]
  simp

lemma insertH_split (A after : Str) (h : '-' ∉ after) :
    insertH (A ++ '-' :: after) = A ++ '-' :: 'h' :: after := by
  unfold insertH
  rw [pyRfind_last '-' A after h]
  have h1 : ((A.length : Int) + 1).toNat = A.length + 1 := by omega
  have h2 : A ++ '-' :: after = (A ++ ['-']) ++ after := by simp
  rw [h1, h2, List.take_left' (by simp), List.drop_left' (by simp)]
  simp

/-- C1 counterexample: an href with four slash-delimited segments and a dash
can carry its only dash inside the three discarded segments; the produced URL
then gets h prepended and does not begin with the fixed root at all, refuting
the claim for hrefs whose dash lies outside the kept remainder. -/
theorem rewriteUrl_dash_in_dropped_segment :
    4 ≤ (pySplit '/' "a-b/c/d/e".toList).length ∧
    '-' ∈ "a-b/c/d/e".toList ∧
    ¬ opinieRoot <+: rewriteUrl "a-b/c/d/e".toList := by
  refine ⟨by decide, by decide, by decide⟩

/-- C1 (amended): for every href with at least four slash-delimited segments
whose remainder after discarding the first three contains a dash, rewriteUrl
yields the fixed root followed by that remainder with a single h inserted
right after its last dash. -/
theorem rewriteUrl_after_last_dash (href : Str)
    (_h4 : 4 ≤ (pySplit '/' href).length)
    (hd : '-' ∈ pyJoin ['/'] ((pySplit '/' href).drop 3)) :
    ∃ before after,
      pyJoin ['/'] ((pySplit '/' href).drop 3) = before ++ '-' :: after ∧
      '-' ∉ after ∧
      rewriteUrl href = opinieRoot ++ (before ++ '-' :: 'h' :: after) := by
  obtain ⟨before, after, heq, hafter⟩ := exists_last_split '-' _ hd
  refine ⟨before, after, heq, hafter, ?_⟩
  have h1 : rewriteUrl href
      = insertH (opinieRoot ++ pyJoin ['/'] ((pySplit '/' href).drop 3)) := rfl
  rw [h1, heq,
    show opinieRoot ++ (before ++ '-' :: after) = (opinieRoot ++ before) ++ '-' :: after
      by simp,
    insertH_split _ _ hafter]
  simp

/-- C1 witness. -/
theorem rewriteUrl_after_last_dash_witness :
    4 ≤ (pySplit '/' "/pl/offer/123-grand-hotel".toList).length ∧
    '-' ∈ pyJoin ['/'] ((pySplit '/' "/pl/offer/123-grand-hotel".toList).drop 3) ∧
    ∃ before after,
      pyJoin ['/'] ((pySplit '/' "/pl/offer/123-grand-hotel".toList).drop 3)
        = before ++ '-' :: after ∧
      '-' ∉ after ∧
      rewriteUrl "/pl/offer/123-grand-hotel".toList
        = opinieRoot ++ (before ++ '-' :: 'h' :: after) :=
  ⟨by decide, by decide,
    rewriteUrl_after_last_dash "/pl/offer/123-grand-hotel".toList (by decide) (by decide)⟩

/-- C10: when the rewritten URL contains no dash, rfind yields -1 and the
slice arithmetic prepends h to the entire URL, so the produced string starts
with hhttps and the link is neither skipped nor suffixed. -/
theorem rewriteUrl_no_dash_prepends (href : Str)
    (hd : '-' ∉ opinieRoot ++ pyJoin ['/'] ((pySplit '/' href).drop 3)) :
    rewriteUrl href = 'h' :: (opinieRoot ++ pyJoin ['/'] ((pySplit '/' href).drop 3)) ∧
    "hhttps://www.wakacje.pl/opinie/hotele/".toList <+: rewriteUrl href := by
  have h1 : rewriteUrl href
      = insertH (opinieRoot ++ pyJoin ['/'] ((pySplit '/' href).drop 3)) := rfl
  constructor
  · rw [h1, insertH_of_not_mem _ hd]
  · rw [h1, insertH_of_not_mem _ hd]
    refine ⟨pyJoin ['/'] ((pySplit '/' href).drop 3), ?_⟩
    have h2 : "hhttps://www.wakacje.pl/opinie/hotele/".toList = 'h' :: opinieRoot := by
      decide
    rw [h2]
    simp

/-- C10 witness. -/
theorem rewriteUrl_no_dash_prepends_witness :
    '-' ∉ opinieRoot ++ pyJoin ['/'] ((pySplit '/' "a/b/c/d".toList).drop 3) ∧
    rewriteUrl "a/b/c/d".toList
      = 'h' :: (opinieRoot ++ pyJoin ['/'] ((pySplit '/' "a/b/c/d".toList).drop 3)) ∧
    "hhttps://www.wakacje.pl/opinie/hotele/".toList <+: rewriteUrl "a/b/c/d".toList :=
  ⟨by decide, (rewriteUrl_no_dash_prepends "a/b/c/d".toList (by decide)).1,
    (rewriteUrl_no_dash_prepends "a/b/c/d".toList (by decide)).2⟩

/-- C7: a catalog document without the swiper-wrapper carousel makes
parse_hotel_links return the empty list, a valid result rather than a
failure. -/
theorem parse_hotel_links_no_carousel (soup : Doc)
    (h : docFind (isTagClass divTag swiperClass) soup = none) :
    parse_hotel_links soup = some [] := by
  unfold parse_hotel_links
  rw [h]

/-- C7 witness. -/
theorem parse_hotel_links_no_carousel_witness :
    docFind (isTagClass divTag swiperClass) [] = none ∧
    parse_hotel_links [] = some [] :=
  ⟨rfl, parse_hotel_links_no_carousel [] rfl⟩

/-- C6: extract_opinions is total; it returns the empty list when the
opinions__list container is absent, and otherwise the stripped text of every
matching p element below the container, in document order. -/
theorem extract_opinions_spec (soup : Doc) :
    (docFind (isTagClass divTag opinionsListClass) soup = none →
      extract_opinions soup = []) ∧
    ∀ d, docFind (isTagClass divTag opinionsListClass) soup = some d →
      extract_opinions soup
        = (findAllL (isTagClass pTag opinionContentClass) (childrenOf d)).map
            getTextStrip := by
  constructor
  · intro h
    unfold extract_opinions
    rw [h]
  · intro d h
    unfold extract_opinions
    rw [h]

/- Builders for the concrete documents used by the synthetic scenarios. -/

def mkOpinion (s : Str) : Node :=
  Node.elem pTag [(classKey, opinionContentClass)] [Node.text s]

def mkOpinionsDiv (ops : List Str) : Node :=
  Node.elem divTag [(classKey, opinionsListClass)] (ops.map mkOpinion)

def mkNext (href : Str) : Node :=
  Node.elem liTag [(classKey, nextItemClass)] [Node.elem aTag [(hrefKey, href)] []]

def c6div : Node := mkOpinionsDiv ["alpha".toList, "beta".toList]

def c6doc : Doc := [c6div]

/-- C6 witness. -/
theorem extract_opinions_spec_witness :
    docFind (isTagClass divTag opinionsListClass) c6doc = some c6div ∧
    extract_opinions c6doc
      = (findAllL (isTagClass pTag opinionContentClass) (childrenOf c6div)).map
          getTextStrip :=
  ⟨rfl, (extract_opinions_spec c6doc).2 c6div rfl⟩

def c8fr : Node :=
  Node.elem divTag [(classKey, swiperClass)] [Node.elem aTag [(hrefKey, "x".toList)] []]

def c8doc : Doc := [c8fr]

/-- C8 counterexample: an href with a single slash-delimited segment and no
dash is not skipped; parse_hotel_links still produces a URL from it (h
prepended to the bare root), so the output is nonempty rather than the link
being dropped. -/
theorem parse_hotel_links_malformed_not_skipped :
    (pySplit '/' "x".toList).length < 3 ∧
    '-' ∉ "x".toList ∧
    parse_hotel_links c8doc
      = some ["hhttps://www.wakacje.pl/opinie/hotele/".toList] :=
  ⟨by decide, by decide, by decide⟩

lemma optMapM_eq_map (f : α → Option β) (g : α → β) (l : List α)
    (h : ∀ a ∈ l, f a = some (g a)) : optMapM f l = some (l.map g) := by
  induction l with
  | nil => rfl
  | cons a rest ih =>
      simp only [optMapM, h a (List.mem_cons_self a rest), List.map_cons]
      rw [ih (fun x hx => h x (List.mem_cons_of_mem a hx))]
      rfl

/-- C8 (amended): the crawl does not crash on a malformed href, but
parse_hotel_links skips nothing: whenever the carousel is present and every
anchor below it carries an href, it returns exactly one rewritten URL per
anchor, in order, malformed hrefs included. -/
theorem parse_hotel_links_rewrites_every_anchor (soup : Doc) (fr : Node)
    (hfr : docFind (isTagClass divTag swiperClass) soup = some fr)
    (hhref : ∀ a ∈ findAllL (isTag aTag) (childrenOf fr),
      (getAttr hrefKey (attrsOf a)).isSome) :
    parse_hotel_links soup
      = some ((findAllL (isTag aTag) (childrenOf fr)).map
          (fun a => rewriteUrl (pyStrOpt (getAttr hrefKey (attrsOf a))))) := by
  unfold parse_hotel_links
  rw [hfr]
  apply optMapM_eq_map
  intro a ha
  obtain ⟨v, hv⟩ := Option.isSome_iff_exists.mp (hhref a ha)
  rw [hv]
  rfl

/-- C8 witness. -/
theorem parse_hotel_links_rewrites_every_anchor_witness :
    docFind (isTagClass divTag swiperClass) c8doc = some c8fr ∧
    (∀ a ∈ findAllL (isTag aTag) (childrenOf c8fr),
      (getAttr hrefKey (attrsOf a)).isSome) ∧
    parse_hotel_links c8doc
      = some ((findAllL (isTag aTag) (childrenOf c8fr)).map
          (fun a => rewriteUrl (pyStrOpt (getAttr hrefKey (attrsOf a))))) :=
  ⟨rfl, by decide, parse_hotel_links_rewrites_every_anchor c8doc c8fr rfl (by decide)⟩

/- The synthetic three-page hotel: pages linked 1 to 2 to 3, no next control
on page 3. -/

def c2u1 : Str := "https://www.wakacje.pl/opinie/hotele/testowy-hhotel".toList

def c2u2 : Str := wakacjeRoot ++ "/p2".toList

def c2u3 : Str := wakacjeRoot ++ "/p3".toList

def c2p1 : Doc := [mkOpinionsDiv ["o1".toList], mkNext "/p2".toList]

def c2p2 : Doc := [mkOpinionsDiv ["o2a".toList, "o2b".toList], mkNext "/p3".toList]

def c2p3 : Doc := [mkOpinionsDiv ["o3".toList]]

def c2fetch : Str → Option Doc := fun u =>
  if u = c2u1 then some c2p1
  else if u = c2u2 then some c2p2
  else if u = c2u3 then some c2p3
  else none

/-- C2: on the synthetic three-page hotel, the walk returns the concatenation
of the three pages' opinions in page order, fetches exactly the three URLs
with no URL fetched twice, and each fetched URL after the first is the
next-page link of the page fetched immediately before it. -/
theorem scrape_three_pages :
    scrape_hotel_opinions c2fetch c2u1 5
      = some (extract_opinions c2p1 ++ extract_opinions c2p2 ++ extract_opinions c2p3,
          [c2u1, c2u2, c2u3]) ∧
    [c2u1, c2u2, c2u3].length = 3 ∧
    [c2u1, c2u2, c2u3].Nodup ∧
    (findNextItem c2p1).bind nextPageUrl = some c2u2 ∧
    (findNextItem c2p2).bind nextPageUrl = some c2u3 ∧
    findNextItem c2p3 = none :=
  ⟨by decide, rfl, by decide, by decide, by decide, rfl⟩

/-- The shape of a walk whose pagination chain ends in a failing fetch: from
page d the next links lead through the successfully fetched pages ds, and the
next link of the last page points at a URL whose fetch fails. -/
def FailTail (fetch : Str → Option Doc) : Doc → List Doc → Prop
  | d, [] => ∃ np u, findNextItem d = some np ∧ nextPageUrl np = some u ∧
      fetch u = none
  | d, d2 :: rest => ∃ np u, findNextItem d = some np ∧ nextPageUrl np = some u ∧
      fetch u = some d2 ∧ FailTail fetch d2 rest

lemma scrape_loop_fail (fetch : Str → Option Doc) :
    ∀ (ds : List Doc) (d : Doc), FailTail fetch d ds →
    ∀ (fuel : Nat) (acc trace : List Str), ds.length < fuel →
    (scrape_loop fetch fuel acc trace (findNextItem d)).map Prod.fst
      = some (acc ++ (ds.map extract_opinions).flatten) := by
  intro ds
  induction ds with
  | nil =>
      intro d hft fuel acc trace hfuel
      obtain ⟨np, u, hnp, hu, hf⟩ := hft
      obtain ⟨f, rfl⟩ : ∃ f, fuel = f + 1 := ⟨fuel - 1, by omega⟩
      rw [hnp]
      simp only [scrape_loop, hu, hf]
      simp
  | cons d2 rest ih =>
      intro d hft fuel acc trace hfuel
      obtain ⟨np, u, hnp, hu, hf, htail⟩ := hft
      obtain ⟨f, rfl⟩ : ∃ f, fuel = f + 1 := ⟨fuel - 1, by omega⟩
      have hrest : rest.length < f := by
        simp only [List.length_cons] at hfuel
        omega
      rw [hnp]
      simp only [scrape_loop, hu, hf]
      rw [ih d2 htail f _ _ hrest]
      simp

/-- C3: whenever the chain of next-page links from the first page eventually
reaches a URL whose fetch fails, scrape_hotel_opinions terminates normally (no
error escapes to the caller) and returns exactly the opinions accumulated from
the pages already processed, in page order. -/
theorem scrape_partial_on_fetch_failure (fetch : Str → Option Doc)
    (u0 : Str) (d0 : Doc) (ds : List Doc) (fuel : Nat)
    (h0 : fetch u0 = some d0)
    (hft : FailTail fetch d0 ds)
    (hfuel : ds.length < fuel) :
    (scrape_hotel_opinions fetch u0 fuel).map Prod.fst
      = some (((d0 :: ds).map extract_opinions).flatten) := by
  simp only [scrape_hotel_opinions, h0]
  rw [scrape_loop_fail fetch ds d0 hft fuel _ _ hfuel]
  simp

/- A two-fetch world for the failing-walk witness: the first page succeeds and
carries a next control, the second fetch fails. -/

def c3u1 : Str := "https://www.wakacje.pl/opinie/hotele/padnie-hhotel".toList

def c3p1 : Doc := [mkOpinionsDiv ["only".toList], mkNext "/p2".toList]

def c3fetch : Str → Option Doc := fun u => if u = c3u1 then some c3p1 else none

/-- C3 witness: when the second fetch fails the walk returns exactly the first
page's opinions. -/
theorem scrape_partial_on_fetch_failure_witness :
    c3fetch c3u1 = some c3p1 ∧
    FailTail c3fetch c3p1 [] ∧
    ([] : List Doc).length < 2 ∧
    (scrape_hotel_opinions c3fetch c3u1 2).map Prod.fst
      = some (((c3p1 :: ([] : List Doc)).map extract_opinions).flatten) := by
  refine ⟨rfl, ⟨mkNext "/p2".toList, wakacjeRoot ++ "/p2".toList, rfl, rfl, rfl⟩,
    by decide, ?_⟩
  exact scrape_partial_on_fetch_failure c3fetch c3u1 c3p1 [] 2 rfl
    ⟨mkNext "/p2".toList, wakacjeRoot ++ "/p2".toList, rfl, rfl, rfl⟩ (by decide)

/-- C5 counterexample: on the scenario link the code produces the URL
with the offer segment discarded (as one of the first three slash-delimited
segments) and the h inserted after the last dash, not the URL stated by the
claim, whose value keeps offer and has the h after the first dash. -/
theorem rewriteUrl_scenario_value :
    rewriteUrl "/pl/offer/123-grand-hotel".toList
      = "https://www.wakacje.pl/opinie/hotele/123-grand-hhotel".toList ∧
    rewriteUrl "/pl/offer/123-grand-hotel".toList
      ≠ "https://www.wakacje.pl/opinie/hotele/offer/123-hgrand-hotel".toList :=
  ⟨by decide, by decide⟩

/- The end-to-end world: a catalog page whose carousel holds the single
scenario link, and one review page with two opinion blocks and no next
control. -/

def c5cat : Doc :=
  [Node.elem divTag [(classKey, swiperClass)]
    [Node.elem aTag [(hrefKey, "/pl/offer/123-grand-hotel".toList)] []]]

def c5hotelUrl : Str :=
  "https://www.wakacje.pl/opinie/hotele/123-grand-hhotel".toList

def c5page : Doc := [mkOpinionsDiv ["Great stay".toList, "Would return".toList]]

def c5fetch : Str → Option Doc := fun u =>
  if u = mainUrl then some c5cat
  else if u = c5hotelUrl then some c5page
  else none

/-- C5 (amended): the end-to-end scenario with the rewritten link the code
actually produces: the single carousel link becomes
https://www.wakacje.pl/opinie/hotele/123-grand-hhotel, and the final snapshot
pairs that URL with the two opinions of its single review page. -/
theorem crawl_end_to_end :
    parse_hotel_links c5cat = some [c5hotelUrl] ∧
    findNextItem c5page = none ∧
    runCrawl c5fetch 3
      = some [(c5hotelUrl, ["Great stay".toList, "Would return".toList])] :=
  ⟨by decide, rfl, by decide⟩

/- Positional facts about optMapM, used for the snapshot-shape claim. -/

lemma optMapM_cons (f : α → Option β) (a : α) (rest : List α) (bs : List β)
    (h : optMapM f (a :: rest) = some bs) :
    ∃ b bs', f a = some b ∧ optMapM f rest = some bs' ∧ bs = b :: bs' := by
  cases hfa : f a with
  | none => simp [optMapM, hfa] at h
  | some b =>
      cases hrest : optMapM f rest with
      | none => simp [optMapM, hfa, hrest] at h
      | some bs' =>
          refine ⟨b, bs', rfl, rfl, ?_⟩
          simp only [optMapM, hfa, hrest, Option.map_some'] at h
          exact (Option.some.inj h).symm

lemma optMapM_length (f : α → Option β) :
    ∀ (l : List α) (bs : List β), optMapM f l = some bs → bs.length = l.length := by
  intro l
  induction l with
  | nil =>
      intro bs h
      simp only [optMapM] at h
      rw [← Option.some.inj h]
      rfl
  | cons a rest ih =>
      intro bs h
      obtain ⟨b, bs', _, hrest, rfl⟩ := optMapM_cons f a rest bs h
      simp [ih bs' hrest]

lemma optMapM_getElem (f : α → Option β) :
    ∀ (l : List α) (bs : List β), optMapM f l = some bs →
    ∀ (i : Nat) (h1 : i < l.length) (h2 : i < bs.length), f l[i] = some bs[i] := by
  intro l
  induction l with
  | nil =>
      intro bs h i h1 h2
      exact absurd h1 (by simp)
  | cons a rest ih =>
      intro bs h i h1 h2
      obtain ⟨b, bs', hb, hrest, rfl⟩ := optMapM_cons f a rest bs h
      cases i with
      | zero => simpa using hb
      | succ j =>
          have hj1 : j < rest.length := by simpa using h1
          have hj2 : j < bs'.length := by simpa using h2
          simpa using ih bs' hrest j hj1 hj2

/-- C9: whenever the catalog fetch succeeds and the run completes with a
snapshot, the snapshot holds exactly one entry per extracted hotel link, in
extraction order, and a hotel whose very first page fetch fails still
contributes its entry, with an empty opinions list. -/
theorem runCrawl_snapshot_shape (fetch : Str → Option Doc) (fuel : Nat)
    (soup : Doc) (data : List (Str × List Str))
    (hcat : fetch mainUrl = some soup)
    (hrun : runCrawl fetch fuel = some data) :
    ∃ urls, parse_hotel_links soup = some urls ∧
      data.map Prod.fst = urls ∧
      ∀ (i : Nat) (h1 : i < urls.length) (h2 : i < data.length),
        fetch urls[i] = none → data[i].2 = [] := by
  simp only [runCrawl, hcat] at hrun
  cases hp : parse_hotel_links soup with
  | none =>
      rw [hp] at hrun
      cases hrun
  | some urls =>
      rw [hp] at hrun
      refine ⟨urls, rfl, ?_, ?_⟩
      · have hlen : data.length = urls.length := optMapM_length _ urls data hrun
        apply List.ext_getElem
        · simp [hlen]
        · intro i hi1 hi2
          have h3 : i < data.length := by simpa using hi1
          have hget := optMapM_getElem _ urls data hrun i hi2 h3
          rw [Option.map_eq_some'] at hget
          obtain ⟨r, _, hval⟩ := hget
          have : data[i].1 = urls[i] := by rw [← hval]
          simpa using this
      · intro i h1 h2 hnone
        have hget := optMapM_getElem _ urls data hrun i h1 h2
        rw [Option.map_eq_some'] at hget
        obtain ⟨r, hr, hval⟩ := hget
        rw [scrape_hotel_opinions, hnone] at hr
        rw [← hval, ← Option.some.inj hr]

/- A world for the snapshot-shape witness: the catalog yields one hotel link
whose own page fetch fails. -/

def c9hotelUrl : Str := "https://www.wakacje.pl/opinie/hotele/x-hy".toList

def c9cat : Doc :=
  [Node.elem divTag [(classKey, swiperClass)]
    [Node.elem aTag [(hrefKey, "/pl/offer/x-y".toList)] []]]

def c9fetch : Str → Option Doc := fun u => if u = mainUrl then some c9cat else none

/-- C9 witness: the failed hotel still appears in the snapshot with an empty
opinions list. -/
theorem runCrawl_snapshot_shape_witness :
    c9fetch mainUrl = some c9cat ∧
    runCrawl c9fetch 3 = some [(c9hotelUrl, [])] ∧
    ∃ urls, parse_hotel_links c9cat = some urls ∧
      [(c9hotelUrl, ([] : List Str))].map Prod.fst = urls ∧
      ∀ (i : Nat) (h1 : i < urls.length)
        (h2 : i < [(c9hotelUrl, ([] : List Str))].length),
        c9fetch urls[i] = none → [(c9hotelUrl, ([] : List Str))][i].2 = [] :=
  ⟨rfl, by decide,
    runCrawl_snapshot_shape c9fetch 3 c9cat [(c9hotelUrl, [])] rfl (by decide)⟩

/- The catalog-crash world: the carousel holds an anchor without an href, so
parse_hotel_links raises and main aborts before writing. -/

def c4cat : Doc :=
  [Node.elem divTag [(classKey, swiperClass)] [Node.elem aTag [] []]]

def c4fetch : Str → Option Doc := fun u => if u = mainUrl then some c4cat else none

/-- C4 counterexample: with a successful catalog fetch whose carousel holds an
href-less anchor, the AttributeError from None.split propagates out of main
and the run produces no snapshot at all, so not every run writes one. -/
theorem runCrawl_crashes_on_hrefless_anchor :
    (c4fetch mainUrl).isSome = true ∧ runCrawl c4fetch 3 = none :=
  ⟨rfl, rfl⟩

/-- A terminating pagination chain: starting from page d the walk encounters
exactly the pages ds, each reached through a next-page control holding an
anchor, and then stops — either the last page carries no next-page control or
the next fetch fails. A cyclic next chain, on which the source's while loop
runs forever, admits no such finite chain. -/
def DoneTail (fetch : Str → Option Doc) : Doc → List Doc → Prop
  | d, [] => findNextItem d = none ∨
      ∃ np u, findNextItem d = some np ∧ nextPageUrl np = some u ∧ fetch u = none
  | d, d2 :: rest => ∃ np u, findNextItem d = some np ∧ nextPageUrl np = some u ∧
      fetch u = some d2 ∧ DoneTail fetch d2 rest

/-- A hotel walk that terminates: its first fetch fails outright, or it yields
a page whose encountered pagination chain is finite. -/
def TerminatingWalk (fetch : Str → Option Doc) (u : Str) : Prop :=
  fetch u = none ∨ ∃ d ds, fetch u = some d ∧ DoneTail fetch d ds

lemma scrape_loop_done (fetch : Str → Option Doc) :
    ∀ (ds : List Doc) (d : Doc), DoneTail fetch d ds →
    ∀ (fuel : Nat) (acc trace : List Str), ds.length < fuel →
    ∃ tr2, scrape_loop fetch fuel acc trace (findNextItem d)
      = some (acc ++ (ds.map extract_opinions).flatten, tr2) := by
  intro ds
  induction ds with
  | nil =>
      intro d hdt fuel acc trace hfuel
      rcases hdt with hnone | ⟨np, u, hnp, hu, hf⟩
      · rw [hnone]
        exact ⟨trace, by simp [scrape_loop]⟩
      · obtain ⟨f, rfl⟩ : ∃ f, fuel = f + 1 := ⟨fuel - 1, by omega⟩
        rw [hnp]
        refine ⟨trace ++ [u], ?_⟩
        simp only [scrape_loop, hu, hf]
        simp
  | cons d2 rest ih =>
      intro d hdt fuel acc trace hfuel
      obtain ⟨np, u, hnp, hu, hf, htail⟩ := hdt
      obtain ⟨f, rfl⟩ : ∃ f, fuel = f + 1 := ⟨fuel - 1, by omega⟩
      have hrest : rest.length < f := by
        simp only [List.length_cons] at hfuel
        omega
      rw [hnp]
      simp only [scrape_loop, hu, hf]
      obtain ⟨tr2, htr⟩ := ih d2 htail f (acc ++ extract_opinions d2) (trace ++ [u]) hrest
      refine ⟨tr2, ?_⟩
      rw [htr]
      simp

lemma scrape_stable (fetch : Str → Option Doc) (u : Str)
    (ht : TerminatingWalk fetch u) :
    ∃ (ops : List Str) (N : Nat), ∀ fuel, N ≤ fuel →
      (scrape_hotel_opinions fetch u fuel).map Prod.fst = some ops := by
  rcases ht with hnone | ⟨d, ds, hd, hdt⟩
  · exact ⟨[], 0, fun fuel _ => by simp [scrape_hotel_opinions, hnone]⟩
  · refine ⟨extract_opinions d ++ (ds.map extract_opinions).flatten, ds.length + 1,
      fun fuel hfuel => ?_⟩
    simp only [scrape_hotel_opinions, hd]
    obtain ⟨tr2, htr⟩ := scrape_loop_done fetch ds d hdt fuel (extract_opinions d)
      [u] (by omega)
    rw [htr]
    rfl

lemma optMapM_scrape_stable (fetch : Str → Option Doc) :
    ∀ (urls : List Str), (∀ u ∈ urls, TerminatingWalk fetch u) →
    ∃ (N : Nat) (data : List (Str × List Str)), ∀ fuel, N ≤ fuel →
      optMapM
        (fun u => (scrape_hotel_opinions fetch u fuel).map (fun r => (u, r.1)))
        urls = some data := by
  intro urls
  induction urls with
  | nil => exact fun _ => ⟨0, [], fun _ _ => rfl⟩
  | cons u rest ih =>
      intro h
      obtain ⟨ops, N1, h1⟩ := scrape_stable fetch u (h u (List.mem_cons_self u rest))
      obtain ⟨N2, data2, h2⟩ := ih (fun x hx => h x (List.mem_cons_of_mem u hx))
      refine ⟨max N1 N2, (u, ops) :: data2, fun fuel hfuel => ?_⟩
      have e1 := h1 fuel (le_trans (le_max_left N1 N2) hfuel)
      rw [Option.map_eq_some'] at e1
      obtain ⟨r, hr, hops⟩ := e1
      simp only [optMapM, hr, Option.map_some', hops,
        h2 fuel (le_trans (le_max_right N1 N2) hfuel)]

/-- C4 (amended): when the catalog fetch fails the run terminates with the
empty snapshot, which is still serialized and written; and every run whose
catalog parse succeeds and whose every hotel walk terminates — the walk's
first fetch fails, or the pagination chain it encounters is finite, each
encountered next-page control holding an anchor — completes and writes its
snapshot, empty, partial or full: the run's data is one fixed list, reached at
every sufficiently large iteration bound. Runs that raise an uncaught
AttributeError or loop forever on a cyclic next chain never reach the write
and are not covered. -/
theorem runCrawl_writes_snapshot (fetch : Str → Option Doc) :
    (∀ fuel, fetch mainUrl = none → runCrawl fetch fuel = some []) ∧
    (∀ soup urls, fetch mainUrl = some soup → parse_hotel_links soup = some urls →
      (∀ u ∈ urls, TerminatingWalk fetch u) →
      ∃ (N : Nat) (data : List (Str × List Str)), ∀ fuel, N ≤ fuel →
        runCrawl fetch fuel = some data) := by
  constructor
  · intro fuel h
    simp [runCrawl, h]
  · intro soup urls hcat hp hterm
    obtain ⟨N, data, hstable⟩ := optMapM_scrape_stable fetch urls hterm
    refine ⟨N, data, fun fuel hfuel => ?_⟩
    simp only [runCrawl, hcat, hp]
    exact hstable fuel hfuel

def c4noWorld : Str → Option Doc := fun _ => none

/- The terminating witness world: the catalog yields one hotel whose single
review page has no next-page control. -/

def c4okUrl : Str := "https://www.wakacje.pl/opinie/hotele/dobry-hhotel".toList

def c4okCat : Doc :=
  [Node.elem divTag [(classKey, swiperClass)]
    [Node.elem aTag [(hrefKey, "/pl/offer/dobry-hotel".toList)] []]]

def c4okPage : Doc := [mkOpinionsDiv ["ok".toList]]

def c4okFetch : Str → Option Doc := fun u =>
  if u = mainUrl then some c4okCat
  else if u = c4okUrl then some c4okPage
  else none

/-- C4 witness: the failing-catalog half at the all-failing world, and the
writes-snapshot half at a world with one terminating single-page hotel walk. -/
theorem runCrawl_writes_snapshot_witness :
    (c4noWorld mainUrl = none ∧ runCrawl c4noWorld 1 = some []) ∧
    (c4okFetch mainUrl = some c4okCat ∧
      parse_hotel_links c4okCat = some [c4okUrl] ∧
      (∀ u ∈ [c4okUrl], TerminatingWalk c4okFetch u) ∧
      ∃ (N : Nat) (data : List (Str × List Str)), ∀ fuel, N ≤ fuel →
        runCrawl c4okFetch fuel = some data) := by
  have hterm : ∀ u ∈ [c4okUrl], TerminatingWalk c4okFetch u := by
    intro u hu
    rw [List.mem_singleton] at hu
    subst hu
    exact Or.inr ⟨c4okPage, [], rfl, Or.inl rfl⟩
  exact ⟨⟨rfl, (runCrawl_writes_snapshot c4noWorld).1 1 rfl⟩,
    ⟨rfl, by decide, hterm,
      (runCrawl_writes_snapshot c4okFetch).2 c4okCat [c4okUrl] rfl (by decide) hterm⟩⟩
